import Mathlib

/-!
Verification of the `em.py` deduplication script (repository AP-Data).

The script reads a directory of `*TopicLookup.json` documents, builds a set of
`(unitCd, topicCd, skillCd)` signatures from every file other than a fixed base
file, filters the base file's `lookupData.units[*].topics[*].skills[*]`
structure against that set (dropping topics and units that become empty), and
writes the filtered document.

JSON values are embedded as the inductive `Em.Json` (numbers as integers).
Python dictionaries coming from `json.load` are key-ordered and duplicate-free,
so objects are modelled as association lists (`Em.Obj`); `dict.get`,
`dict(d)`-copy followed by key assignment, and Python truthiness are modelled
by `Em.getField`, `Em.setField` and `Em.truthy`.  Python raises on documents
that do not follow the object/array shape the script expects; the accessor
functions here instead return empty defaults, and the theorems concern the
documents on which the script runs to completion.
-/

namespace Em

mutual
/-- JSON values; arrays and objects use the mutual list types `JArr`/`JObj`
so that equality tests compute by structural recursion. -/
inductive Json where
  | null
  | bool (b : Bool)
  | str (s : String)
  | num (n : Int)
  | arr (xs : JArr)
  | obj (kvs : JObj)
inductive JArr where
  | nil
  | cons (hd : Json) (tl : JArr)
inductive JObj where
  | nil
  | cons (k : String) (v : Json) (tl : JObj)
end

mutual
def Json.decEq : (a b : Json) → Decidable (a = b)
  | .null, .null => isTrue rfl
  | .null, .bool _ => isFalse (fun h => Json.noConfusion h)
  | .null, .str _ => isFalse (fun h => Json.noConfusion h)
  | .null, .num _ => isFalse (fun h => Json.noConfusion h)
  | .null, .arr _ => isFalse (fun h => Json.noConfusion h)
  | .null, .obj _ => isFalse (fun h => Json.noConfusion h)
  | .bool _, .null => isFalse (fun h => Json.noConfusion h)
  | .bool x, .bool y =>
    if h : x = y then isTrue (by rw [h]) else isFalse (by simp [h])
  | .bool _, .str _ => isFalse (fun h => Json.noConfusion h)
  | .bool _, .num _ => isFalse (fun h => Json.noConfusion h)
  | .bool _, .arr _ => isFalse (fun h => Json.noConfusion h)
  | .bool _, .obj _ => isFalse (fun h => Json.noConfusion h)
  | .str _, .null => isFalse (fun h => Json.noConfusion h)
  | .str _, .bool _ => isFalse (fun h => Json.noConfusion h)
  | .str x, .str y =>
    if h : x = y then isTrue (by rw [h]) else isFalse (by simp [h])
  | .str _, .num _ => isFalse (fun h => Json.noConfusion h)
  | .str _, .arr _ => isFalse (fun h => Json.noConfusion h)
  | .str _, .obj _ => isFalse (fun h => Json.noConfusion h)
  | .num _, .null => isFalse (fun h => Json.noConfusion h)
  | .num _, .bool _ => isFalse (fun h => Json.noConfusion h)
  | .num _, .str _ => isFalse (fun h => Json.noConfusion h)
  | .num x, .num y =>
    if h : x = y then isTrue (by rw [h]) else isFalse (by simp [h])
  | .num _, .arr _ => isFalse (fun h => Json.noConfusion h)
  | .num _, .obj _ => isFalse (fun h => Json.noConfusion h)
  | .arr _, .null => isFalse (fun h => Json.noConfusion h)
  | .arr _, .bool _ => isFalse (fun h => Json.noConfusion h)
  | .arr _, .str _ => isFalse (fun h => Json.noConfusion h)
  | .arr _, .num _ => isFalse (fun h => Json.noConfusion h)
  | .arr x, .arr y =>
    match JArr.decEq x y with
    | isTrue h => isTrue (by rw [h])
    | isFalse h => isFalse (by simp [h])
  | .arr _, .obj _ => isFalse (fun h => Json.noConfusion h)
  | .obj _, .null => isFalse (fun h => Json.noConfusion h)
  | .obj _, .bool _ => isFalse (fun h => Json.noConfusion h)
  | .obj _, .str _ => isFalse (fun h => Json.noConfusion h)
  | .obj _, .num _ => isFalse (fun h => Json.noConfusion h)
  | .obj _, .arr _ => isFalse (fun h => Json.noConfusion h)
  | .obj x, .obj y =>
    match JObj.decEq x y with
    | isTrue h => isTrue (by rw [h])
    | isFalse h => isFalse (by simp [h])

def JArr.decEq : (a b : JArr) → Decidable (a = b)
  | .nil, .nil => isTrue rfl
  | .nil, .cons _ _ => isFalse (fun h => JArr.noConfusion h)
  | .cons _ _, .nil => isFalse (fun h => JArr.noConfusion h)
  | .cons x xs, .cons y ys =>
    match Json.decEq x y, JArr.decEq xs ys with
    | isTrue h1, isTrue h2 => isTrue (by rw [h1, h2])
    | isFalse h1, _ => isFalse (by simp [h1])
    | _, isFalse h2 => isFalse (by simp [h2])

def JObj.decEq : (a b : JObj) → Decidable (a = b)
  | .nil, .nil => isTrue rfl
  | .nil, .cons _ _ _ => isFalse (fun h => JObj.noConfusion h)
  | .cons _ _ _, .nil => isFalse (fun h => JObj.noConfusion h)
  | .cons k1 v1 xs, .cons k2 v2 ys =>
    if hk : k1 = k2 then
      match Json.decEq v1 v2, JObj.decEq xs ys with
      | isTrue h1, isTrue h2 => isTrue (by rw [hk, h1, h2])
      | isFalse h1, _ => isFalse (by simp [h1])
      | _, isFalse h2 => isFalse (by simp [h2])
    else isFalse (by simp [hk])
end

instance : DecidableEq Json := Json.decEq

instance : DecidableEq JArr := JArr.decEq

instance : DecidableEq JObj := JObj.decEq

/-- Elements of a JSON array as a `List`. -/
def JArr.toList : JArr → List Json
  | .nil => []
  | .cons x xs => x :: JArr.toList xs

/-- Key/value pairs of a JSON object as an association list. -/
def JObj.toList : JObj → List (String × Json)
  | .nil => []
  | .cons k v xs => (k, v) :: JObj.toList xs

/-- Builds a `JArr` from a list of JSON values. -/
def JArr.ofList : List Json → JArr
  | [] => .nil
  | x :: xs => .cons x (JArr.ofList xs)

/-- Builds a `JObj` from an association list. -/
def JObj.ofList : List (String × Json) → JObj
  | [] => .nil
  | (k, v) :: xs => .cons k v (JObj.ofList xs)

/-- A Python dictionary parsed from JSON: an ordered association list. -/
abbrev Obj := List (String × Json)

/-- A signature tuple `(u_cd, t_cd, s_cd)` as built by the script; `none`
models Python's `None`, the result of `dict.get` on a missing key. -/
abbrev Sig := Option Json × Option Json × Option Json

/-- Key/value pairs of a JSON value expected to be an object (Python raises
on other shapes, which the theorems exclude; here they give `[]`). -/
def asObj : Json → Obj
  | .obj kvs => kvs.toList
  | _ => []

/-- Elements of a JSON value expected to be an array. -/
def asArr : Json → List Json
  | .arr xs => xs.toList
  | _ => []

/-- JSON object literal built from an association list. -/
def objOfList (o : Obj) : Json := .obj (JObj.ofList o)

/-- JSON array literal built from a list of objects, as produced when the
script stores a Python list of dicts (`new_skills`, `new_topics`). -/
def arrOfObjs (l : List Obj) : Json := .arr (JArr.ofList (l.map objOfList))

/-- Elements of a JSON array, each viewed as an object. -/
def asObjs (xs : List Json) : List Obj := xs.map asObj

/-- Python `d.get(k)` on a dict: value at the key, or `None`. -/
def getField (o : Obj) (k : String) : Option Json :=
  (o.find? (fun kv => kv.1 == k)).map (fun kv => kv.2)

/-- Python `d_copy = dict(d); d_copy[k] = v`: replace the value at an existing
key in place, otherwise append the new key at the end. -/
def setField (o : Obj) (k : String) (v : Json) : Obj :=
  if o.any (fun kv => kv.1 == k) then
    o.map (fun kv => if kv.1 == k then (k, v) else kv)
  else o ++ [(k, v)]

/-- The object without the entries at key `k` (used to state frame
conditions about "all fields other than `k`"). -/
def dropKey (o : Obj) (k : String) : Obj :=
  o.filter (fun kv => !(kv.1 == k))

/-- Python truthiness of a JSON value (`if u_cd and t_cd and s_cd`). -/
def truthy : Json → Bool
  | .null => false
  | .bool b => b
  | .str s => !(s == "")
  | .num n => !(n == 0)
  | .arr .nil => false
  | .arr _ => true
  | .obj .nil => false
  | .obj _ => true

/-- Truthiness of a `dict.get` result (`None` for a missing key is falsy). -/
def otruthy : Option Json → Bool
  | none => false
  | some j => truthy j

/-- Source `data.get("lookupData", {}).get("units", [])`, each unit viewed as
an object. -/
def lookupUnits (d : Json) : List Obj :=
  asObjs (asArr ((getField
    (asObj ((getField (asObj d) "lookupData").getD (.obj .nil)))
    "units").getD (.arr .nil)))

/-- Source `unit.get("topics", [])`, each topic viewed as an object. -/
def getTopics (u : Obj) : List Obj :=
  asObjs (asArr ((getField u "topics").getD (.arr .nil)))

/-- Source `topic.get("skills", [])`, each skill viewed as an object. -/
def getSkills (t : Obj) : List Obj :=
  asObjs (asArr ((getField t "skills").getD (.arr .nil)))

/-- The signature tuple `(unit.get("unitCd"), topic.get("topicCd"),
skill.get("skillCd"))`. -/
def sigOf (unit topic skill : Obj) : Sig :=
  (getField unit "unitCd", getField topic "topicCd", getField skill "skillCd")

/-- Signatures contributed by one parsed document: one entry per skill whose
`unitCd`/`topicCd`/`skillCd` are all truthy (the `seen_signatures.add` /
`other_entry_count += 1` loop). -/
def docSigs (d : Json) : List Sig :=
  (lookupUnits d).flatMap (fun unit =>
    (getTopics unit).flatMap (fun topic =>
      (getSkills topic).filterMap (fun skill =>
        if otruthy (getField unit "unitCd") && otruthy (getField topic "topicCd")
            && otruthy (getField skill "skillCd")
        then some (sigOf unit topic skill) else none)))

/-- Signatures aggregated over the "other" files in order; `none` stands for a
file whose JSON parse failed, which is skipped with a warning.  Membership in
this list coincides with membership in the Python set `seen_signatures`. -/
def aggFiles (parsed : List (Option Json)) : List Sig :=
  parsed.flatMap (fun pd => match pd with | none => [] | some d => docSigs d)

/-- Source skill filter: keep a skill unless its signature is in the set. -/
def filterSkills (sigs : List Sig) (u t : Option Json) (skills : List Obj) : List Obj :=
  skills.filter (fun skill => !(decide ((u, t, getField skill "skillCd") ∈ sigs)))

/-- Source per-topic step: filter the skills; drop the topic if none remain,
otherwise copy it with the `skills` field replaced. -/
def filterTopic (sigs : List Sig) (u : Option Json) (topic : Obj) : Option Obj :=
  let ns := filterSkills sigs u (getField topic "topicCd") (getSkills topic)
  if ns.isEmpty then none
  else some (setField topic "skills" (arrOfObjs ns))

/-- The retained, filtered topics of one unit (`new_topics`). -/
def filteredTopics (sigs : List Sig) (unit : Obj) : List Obj :=
  (getTopics unit).filterMap (filterTopic sigs (getField unit "unitCd"))

/-- Source per-unit step: drop the unit if no topics remain, otherwise copy
it with the `topics` field replaced. -/
def filterUnit (sigs : List Sig) (unit : Obj) : Option Obj :=
  let nt := filteredTopics sigs unit
  if nt.isEmpty then none
  else some (setField unit "topics" (arrOfObjs nt))

/-- Source unit loop producing `new_units`. -/
def filterUnits (sigs : List Sig) (units : List Obj) : List Obj :=
  units.filterMap (filterUnit sigs)

/-- The whole dedup pipeline on parsed data: units of the output document
given the parsed "other" files and the base document. -/
def dedupUnits (parsed : List (Option Json)) (base : Json) : List Obj :=
  filterUnits (aggFiles parsed) (lookupUnits base)

/-- Source `removed_skills` counter: over all units and topics of the input,
the number of skills whose signature is in the set. -/
def removedSkills (sigs : List Sig) (units : List Obj) : Nat :=
  (units.map (fun unit =>
    ((getTopics unit).map (fun topic =>
      (getSkills topic).countP (fun skill =>
        decide ((getField unit "unitCd", getField topic "topicCd",
          getField skill "skillCd") ∈ sigs)))).sum)).sum

/-- Topic count of a units list (`original_topics_count` / `new_topics_count`). -/
def topicsCountOf (units : List Obj) : Nat :=
  (units.map (fun u => (getTopics u).length)).sum

/-- Skill count of a units list (`original_skills_count` / `new_skills_count`). -/
def skillsCountOf (units : List Obj) : Nat :=
  (units.map (fun u => ((getTopics u).map (fun t => (getSkills t).length)).sum)).sum

/-- Number of skills in a units list whose signature equals `sig` (used to
state that in-base duplicates are all retained). -/
def sigCountIn (sig : Sig) (units : List Obj) : Nat :=
  (units.map (fun unit =>
    ((getTopics unit).map (fun topic =>
      (getSkills topic).countP (fun skill =>
        decide ((getField unit "unitCd", getField topic "topicCd",
          getField skill "skillCd") = sig)))).sum)).sum

/-- Configuration constant `PHYSICS_FILENAME`: the base file. -/
def PHYSICS_FILENAME : String := "Physics_C_Electricity_and_Magnetism_TopicLookup.json"

/-- Configuration constant `OUTPUT_FILENAME`. -/
def OUTPUT_FILENAME : String := "NEW_Physics_C_Electricity_and_Magnetism_TopicLookup.json"

/-- Lexicographic code-point comparison of character lists, the order Python
uses to compare the path strings. -/
def charListLe : List Char → List Char → Bool
  | [], _ => true
  | _ :: _, [] => false
  | a :: as, b :: bs =>
    if a.toNat < b.toNat then true
    else if b.toNat < a.toNat then false
    else charListLe as bs

/-- String comparison used by `sorted(...)`. -/
def strLeB (a b : String) : Bool := charListLe a.data b.data

/-- Suffix test on file names (`str.endswith` semantics). -/
def strEndsWith (s t : String) : Bool := t.data.isSuffixOf s.data

/-- Python `str.startswith`. -/
def strStartsWith (s t : String) : Bool := t.data.isPrefixOf s.data

/-- The glob `*TopicLookup.json`: a suffix match on the file name. -/
def matchesGlob (name : String) : Bool := strEndsWith name "TopicLookup.json"

/-- Selection of "other" files: not the base file and not a previous output
(`p.name != PHYSICS_FILENAME and not p.name.startswith("NEW_")`). -/
def isOtherName (name : String) : Bool :=
  !(name == PHYSICS_FILENAME) && !(strStartsWith name "NEW_")

/-- Insertion step of the sort performed by `sorted(...)`. -/
def insertSorted (x : String) : List String → List String
  | [] => [x]
  | y :: ys => if strLeB x y then x :: y :: ys else y :: insertSorted x ys

/-- Python `sorted` on the globbed names (insertion sort; only the multiset
and stability matter to the script). -/
def sortNames : List String → List String
  | [] => []
  | x :: xs => insertSorted x (sortNames xs)

/-- Source `all_files = sorted(TOPIC_DIR.glob("*TopicLookup.json"))`, given the
directory listing. -/
def allFilesOf (files : List String) : List String :=
  sortNames (files.filter matchesGlob)

/-- Source `other_files` list. -/
def otherFilesOf (files : List String) : List String :=
  (allFilesOf files).filter isOtherName

/-- The signature set built by a run: aggregation over the parsed "other"
files (`parse name = none` models a JSON parse failure for that file). -/
def sigsOf (files : List String) (parse : String → Option Json) : List Sig :=
  aggFiles ((otherFilesOf files).map parse)

/-- Source `other_entry_count`: every qualifying occurrence, duplicates
included. -/
def otherEntriesOf (files : List String) (parse : String → Option Json) : Nat :=
  (((otherFilesOf files).map parse).map (fun pd =>
    match pd with | none => 0 | some d => (docSigs d).length)).sum

/-- The numbers printed by the summary block. -/
structure Stats where
  origUnits : Nat
  origTopics : Nat
  origSkills : Nat
  outUnits : Nat
  outTopics : Nat
  outSkills : Nat
  removed : Nat
  otherEntries : Nat
  deriving DecidableEq

/-- Result of one invocation of `main()`.  The two `[error]` early returns are
`ConfigError`s; an uncaught parse failure on the base file terminates the run
with a traceback. In all three cases no output file is written. -/
inductive RunResult where
  | configErrorBaseMissing
  | configErrorNoFiles
  | parseErrorBase
  | success (output : Json) (stats : Stats)
  deriving DecidableEq

/-- The document written on success:
`{"lookupData": {"units": new_units}}`. -/
def outputDocOf (units : List Obj) : Json :=
  objOfList [("lookupData", objOfList [("units", arrOfObjs units)])]

/-- Summary statistics of a completed run. -/
def statsOf (sigs : List Sig) (units outUnits : List Obj) (otherEntries : Nat) : Stats :=
  { origUnits := units.length
    origTopics := topicsCountOf units
    origSkills := skillsCountOf units
    outUnits := outUnits.length
    outTopics := topicsCountOf outUnits
    outSkills := skillsCountOf outUnits
    removed := removedSkills sigs units
    otherEntries := otherEntries }

/-- The `main()` pipeline over a directory listing `files` and a parsing
oracle `parse` (`none` = `json.load` raises for that file): existence check on
the base file, glob, empty-glob check, signature aggregation over the other
files, base parse, filter, output document and summary. -/
def runMain (files : List String) (parse : String → Option Json) : RunResult :=
  if PHYSICS_FILENAME ∈ files then
    if (allFilesOf files).isEmpty then .configErrorNoFiles
    else
      match parse PHYSICS_FILENAME with
      | none => .parseErrorBase
      | some pd =>
        .success
          (outputDocOf (filterUnits (sigsOf files parse) (lookupUnits pd)))
          (statsOf (sigsOf files parse) (lookupUnits pd)
            (filterUnits (sigsOf files parse) (lookupUnits pd))
            (otherEntriesOf files parse))
  else .configErrorBaseMissing

/-- The output file content a run writes, if any. -/
def outputWritten : RunResult → Option Json
  | .success o _ => some o
  | _ => none

/-- Whether the run ended in one of the two reported `ConfigError`s. -/
def isConfigError : RunResult → Bool
  | .configErrorBaseMissing => true
  | .configErrorNoFiles => true
  | _ => false

/-- Whether the run completed and wrote output. -/
def isSuccess : RunResult → Bool
  | .success _ _ => true
  | _ => false

/-- Skill count weighted by a predicate on (unit code, topic code, skill),
generalizing both the plain skill count and the per-signature count. -/
def qCount (q : Option Json → Option Json → Obj → Bool) (units : List Obj) : Nat :=
  (units.map (fun unit =>
    ((getTopics unit).map (fun topic =>
      (getSkills topic).countP
        (q (getField unit "unitCd") (getField topic "topicCd")))).sum)).sum

/-- Weighted count of the skills the filter removes. -/
def qRemoved (sigs : List Sig) (q : Option Json → Option Json → Obj → Bool)
    (units : List Obj) : Nat :=
  (units.map (fun unit =>
    ((getTopics unit).map (fun topic =>
      (getSkills topic).countP (fun skill =>
        q (getField unit "unitCd") (getField topic "topicCd") skill &&
          decide ((getField unit "unitCd", getField topic "topicCd",
            getField skill "skillCd") ∈ sigs)))).sum)).sum

/-- Whether a JSON value is an object (a Python dict after parsing). -/
def isObjB : Json → Bool
  | .obj _ => true
  | _ => false

/-- Well-formedness of a topic object as the script's per-skill loop expects
it: duplicate-free keys and a `skills` field holding a non-empty array of
objects. -/
def topicWFB (t : Obj) : Bool :=
  decide ((t.map Prod.fst).Nodup) &&
    (match getField t "skills" with
     | some (.arr ss) => !ss.toList.isEmpty && ss.toList.all isObjB
     | _ => false)

/-- Well-formedness of a unit object: duplicate-free keys and a `topics`
field holding a non-empty array of well-formed topic objects. -/
def unitWFB (u : Obj) : Bool :=
  decide ((u.map Prod.fst).Nodup) &&
    (match getField u "topics" with
     | some (.arr ts) =>
        !ts.toList.isEmpty && ts.toList.all (fun tj => isObjB tj && topicWFB (asObj tj))
     | _ => false)

/-- Example skill document fragment used to instantiate theorems. -/
def exSkill (s : String) : Json := objOfList [("skillCd", .str s)]

/-- Example topic fragment. -/
def exTopic (t : String) (sks : List Json) : Json :=
  objOfList [("topicCd", .str t), ("skills", .arr (JArr.ofList sks))]

/-- Example unit fragment. -/
def exUnit (u : String) (tps : List Json) : Json :=
  objOfList [("unitCd", .str u), ("topics", .arr (JArr.ofList tps))]

/-- Example top-level document. -/
def exDoc (us : List Json) : Json :=
  objOfList [("lookupData", objOfList [("units", .arr (JArr.ofList us))])]

/-- An "other" subject document carrying the signature (U1, T1, S1). -/
def exOther : Json := exDoc [exUnit "U1" [exTopic "T1" [exSkill "S1"]]]

/-- A base document whose topic T1 holds skills S1 and S2. -/
def exBase : Json := exDoc [exUnit "U1" [exTopic "T1" [exSkill "S1", exSkill "S2"]]]

/-- The signature shared between `exOther` and `exBase`. -/
def exSig : Sig := (some (.str "U1"), some (.str "T1"), some (.str "S1"))

/-- The surviving skill object of `exBase`. -/
def exSkillS2 : Obj := [("skillCd", .str "S2")]

/-- The topic of `exBase` after filtering against `exOther`. -/
def exOutTopic : Obj :=
  [("topicCd", Json.str "T1"), ("skills", Json.arr (JArr.ofList [objOfList exSkillS2]))]

/-- The unit of `exBase` after filtering against `exOther`. -/
def exOutUnit : Obj :=
  [("unitCd", Json.str "U1"), ("topics", Json.arr (JArr.ofList [objOfList exOutTopic]))]

/-- The unit of `exBase` before filtering. -/
def exBaseUnit : Obj := asObj (exUnit "U1" [exTopic "T1" [exSkill "S1", exSkill "S2"]])

/-- A base document whose only unit has an empty `topics` array. -/
def exEmptyTopicsBase : Json := exDoc [exUnit "U1" []]

/-- A skill object with no `skillCd` key. -/
def exNoCd : Obj := [("name", .str "x")]

/-- A base document whose only skill has no `skillCd`. -/
def exBadBase : Json := exDoc [exUnit "U1" [exTopic "T1" [objOfList exNoCd]]]

/-- The unit of `exBadBase`. -/
def exBadUnit : Obj := asObj (exUnit "U1" [exTopic "T1" [objOfList exNoCd]])

/-- The topic of `exBadBase`. -/
def exBadTopic : Obj := asObj (exTopic "T1" [objOfList exNoCd])

/-- Parsing oracle for the witness run: the base file parses, others fail. -/
def exParseBaseOnly : String → Option Json :=
  fun n => if n = PHYSICS_FILENAME then some exBase else none

/-- A base document carrying the same skill code twice in one topic. -/
def exDupBase : Json := exDoc [exUnit "U1" [exTopic "T1" [exSkill "S2", exSkill "S2"]]]

/-- The duplicated signature of `exDupBase`. -/
def exSigS2 : Sig := (some (.str "U1"), some (.str "T1"), some (.str "S2"))

/-- Parsing oracle for the success-run witness: base and one other file. -/
def exParse : String → Option Json :=
  fun n =>
    if n = PHYSICS_FILENAME then some exBase
    else if n = "Biology_TopicLookup.json" then some exOther else none

/-- Directory listing for the success-run witness. -/
def exFiles : List String := [PHYSICS_FILENAME, "Biology_TopicLookup.json"]

/-- Output document of the witness run. -/
def exOut : Json := outputDocOf (filterUnits (sigsOf exFiles exParse) (lookupUnits exBase))

/-- Statistics of the witness run. -/
def exStats : Stats :=
  statsOf (sigsOf exFiles exParse) (lookupUnits exBase)
    (filterUnits (sigsOf exFiles exParse) (lookupUnits exBase))
    (otherEntriesOf exFiles exParse)

@[simp] lemma arr_toList_ofList (l : List Json) : (JArr.ofList l).toList = l := by
  induction l with
  | nil => rfl
  | cons x xs ih => simp [JArr.ofList, JArr.toList, ih]

@[simp] lemma obj_toList_ofList (o : List (String × Json)) : (JObj.ofList o).toList = o := by
  induction o with
  | nil => rfl
  | cons kv xs ih => cases kv; simp [JObj.ofList, JObj.toList, ih]

@[simp] lemma asObj_objOfList (o : Obj) : asObj (objOfList o) = o := by
  simp [asObj, objOfList]

@[simp] lemma asArr_arrOfObjs (l : List Obj) : asArr (arrOfObjs l) = l.map objOfList := by
  simp [asArr, arrOfObjs]

@[simp] lemma asObjs_map_objOfList (l : List Obj) : asObjs (l.map objOfList) = l := by
  induction l with
  | nil => rfl
  | cons x xs ih => simpa [asObjs] using congrArg (x :: ·) (by simpa [asObjs] using ih)

lemma getField_cons (kv : String × Json) (o : Obj) (k : String) :
    getField (kv :: o) k = if kv.1 = k then some kv.2 else getField o k := by
  by_cases h : kv.1 = k <;> simp [getField, List.find?_cons, h]

lemma map_eq_self_of {α : Type} (l : List α) (f : α → α) (h : ∀ a ∈ l, f a = a) :
    l.map f = l := by
  induction l with
  | nil => rfl
  | cons x xs ih =>
    simp only [List.map_cons, h x (by simp)]
    rw [ih (fun a ha => h a (by simp [ha]))]

lemma filterMap_eq_self_of {α : Type} (l : List α) (f : α → Option α)
    (h : ∀ a ∈ l, f a = some a) : l.filterMap f = l := by
  induction l with
  | nil => rfl
  | cons x xs ih =>
    rw [List.filterMap_cons, h x (by simp), ih (fun a ha => h a (by simp [ha]))]

lemma getField_map_set (o : Obj) (k : String) (v : Json) :
    getField (o.map (fun kv => if kv.1 == k then (k, v) else kv)) k
      = if o.any (fun kv => kv.1 == k) then some v else none := by
  induction o with
  | nil => rfl
  | cons kv o ih =>
    by_cases h : kv.1 = k
    · simp [getField_cons, h]
    · have hb : (kv.1 == k) = false := by simpa using h
      simp only [List.map_cons, List.any_cons, hb, Bool.false_or]
      rw [if_neg (by simp [h]), getField_cons, if_neg h]
      exact ih

lemma getField_map_set_ne (o : Obj) (k k' : String) (v : Json) (h : k' ≠ k) :
    getField (o.map (fun kv => if kv.1 == k then (k, v) else kv)) k' = getField o k' := by
  induction o with
  | nil => rfl
  | cons kv o ih =>
    by_cases hk : kv.1 = k
    · simpa [getField_cons, hk, Ne.symm h] using ih
    · by_cases hk' : kv.1 = k'
      · simp [getField_cons, hk, hk', h]
      · simpa [getField_cons, hk, hk'] using ih

lemma getField_append_single (o : Obj) (k : String) (v : Json)
    (h : o.any (fun kv => kv.1 == k) = false) :
    getField (o ++ [(k, v)]) k = some v := by
  induction o with
  | nil => simp [getField_cons]
  | cons kv o ih =>
    simp only [List.any_cons, Bool.or_eq_false_iff] at h
    have hk : ¬ kv.1 = k := by simpa using h.1
    simp [getField_cons, hk, ih h.2]

lemma getField_append_single_ne (o : Obj) (k k' : String) (v : Json) (h : k' ≠ k) :
    getField (o ++ [(k, v)]) k' = getField o k' := by
  induction o with
  | nil => rw [List.nil_append, getField_cons, if_neg (Ne.symm h)]
  | cons kv o ih =>
    by_cases hk' : kv.1 = k'
    · simp [getField_cons, hk']
    · simp [getField_cons, hk', ih]

lemma getField_setField_self (o : Obj) (k : String) (v : Json) :
    getField (setField o k v) k = some v := by
  unfold setField
  by_cases h : o.any (fun kv => kv.1 == k) = true
  · rw [if_pos h, getField_map_set, if_pos h]
  · rw [if_neg h, getField_append_single _ _ _ (Bool.eq_false_iff.mpr h)]

lemma getField_setField_ne (o : Obj) (k k' : String) (v : Json) (h : k' ≠ k) :
    getField (setField o k v) k' = getField o k' := by
  unfold setField
  by_cases hb : o.any (fun kv => kv.1 == k) = true
  · rw [if_pos hb, getField_map_set_ne _ _ _ _ h]
  · rw [if_neg hb, getField_append_single_ne _ _ _ _ h]

lemma any_setField_self (o : Obj) (k : String) (v : Json) :
    (setField o k v).any (fun kv => kv.1 == k) = true := by
  unfold setField
  by_cases hb : o.any (fun kv => kv.1 == k) = true
  · rw [if_pos hb]
    rcases List.any_eq_true.mp hb with ⟨kv, hm, hkv⟩
    refine List.any_eq_true.mpr ⟨(k, v), List.mem_map.mpr ⟨kv, hm, by simp [hkv]⟩, by simp⟩
  · rw [if_neg hb]
    exact List.any_eq_true.mpr ⟨(k, v), by simp⟩

lemma mem_setField_key (o : Obj) (k : String) (v : Json) :
    ∀ kv ∈ setField o k v, kv.1 = k → kv = (k, v) := by
  unfold setField
  by_cases hb : o.any (fun kv => kv.1 == k) = true
  · rw [if_pos hb]
    intro kv hm hk
    rcases List.mem_map.mp hm with ⟨kv0, hm0, heq⟩
    by_cases h0 : kv0.1 = k
    · simp only [h0, beq_self_eq_true, if_true] at heq
      exact heq.symm
    · simp only [show ((kv0.1 == k) = false) from by simpa using h0,
        Bool.false_eq_true, if_false] at heq
      exact absurd (heq ▸ hk) h0
  · rw [if_neg hb]
    intro kv hm hk
    rcases List.mem_append.mp hm with hmo | hml
    · exact absurd (List.any_eq_true.mpr ⟨kv, hmo, by simpa using hk⟩) hb
    · simpa using hml

lemma setField_of_forall (s : Obj) (k : String) (v : Json)
    (hany : s.any (fun kv => kv.1 == k) = true)
    (hmem : ∀ kv ∈ s, kv.1 = k → kv = (k, v)) : setField s k v = s := by
  unfold setField
  rw [if_pos hany]
  refine map_eq_self_of _ _ (fun kv hm => ?_)
  by_cases hk : kv.1 = k
  · rw [if_pos (by simpa using hk), hmem kv hm hk]
  · rw [if_neg (by simpa using hk)]

lemma setField_setField (o : Obj) (k : String) (v : Json) :
    setField (setField o k v) k v = setField o k v :=
  setField_of_forall _ _ _ (any_setField_self o k v) (mem_setField_key o k v)

lemma filter_ne_map_set (o : Obj) (k : String) (v : Json) :
    (o.map (fun kv => if kv.1 == k then (k, v) else kv)).filter (fun kv => !(kv.1 == k))
      = o.filter (fun kv => !(kv.1 == k)) := by
  induction o with
  | nil => rfl
  | cons kv o ih =>
    by_cases hk : kv.1 = k
    · simpa [List.filter_cons, hk] using ih
    · simpa [List.filter_cons, hk] using ih

lemma dropKey_setField (o : Obj) (k : String) (v : Json) :
    dropKey (setField o k v) k = dropKey o k := by
  unfold setField dropKey
  by_cases hb : o.any (fun kv => kv.1 == k) = true
  · rw [if_pos hb]
    exact filter_ne_map_set o k v
  · rw [if_neg hb, List.filter_append]
    simp

lemma getTopics_setField_topics (u : Obj) (ts : List Obj) :
    getTopics (setField u "topics" (arrOfObjs ts)) = ts := by
  simp [getTopics, getField_setField_self]

lemma getSkills_setField_skills (t : Obj) (ss : List Obj) :
    getSkills (setField t "skills" (arrOfObjs ss)) = ss := by
  simp [getSkills, getField_setField_self]

lemma getField_unitCd_setField_topics (u : Obj) (x : Json) :
    getField (setField u "topics" x) "unitCd" = getField u "unitCd" :=
  getField_setField_ne _ _ _ _ (by decide)

lemma getField_topicCd_setField_skills (t : Obj) (x : Json) :
    getField (setField t "skills" x) "topicCd" = getField t "topicCd" :=
  getField_setField_ne _ _ _ _ (by decide)

lemma filterTopic_eq_some {sigs : List Sig} {u : Option Json} {topic t' : Obj}
    (h : filterTopic sigs u topic = some t') :
    filterSkills sigs u (getField topic "topicCd") (getSkills topic) ≠ [] ∧
      t' = setField topic "skills"
        (arrOfObjs (filterSkills sigs u (getField topic "topicCd") (getSkills topic))) := by
  unfold filterTopic at h
  by_cases he : (filterSkills sigs u (getField topic "topicCd") (getSkills topic)).isEmpty = true
  · rw [if_pos he] at h
    exact absurd h (by simp)
  · rw [if_neg he] at h
    exact ⟨fun hc => he (by simp [hc]), (Option.some_inj.mp h).symm⟩

lemma filterUnit_eq_some {sigs : List Sig} {unit u' : Obj}
    (h : filterUnit sigs unit = some u') :
    filteredTopics sigs unit ≠ [] ∧
      u' = setField unit "topics" (arrOfObjs (filteredTopics sigs unit)) := by
  unfold filterUnit at h
  by_cases he : (filteredTopics sigs unit).isEmpty = true
  · rw [if_pos he] at h
    exact absurd h (by simp)
  · rw [if_neg he] at h
    exact ⟨fun hc => he (by simp [hc]), (Option.some_inj.mp h).symm⟩

lemma filterTopic_isSome_iff (sigs : List Sig) (u : Option Json) (topic : Obj) :
    (∃ t', filterTopic sigs u topic = some t') ↔
      filterSkills sigs u (getField topic "topicCd") (getSkills topic) ≠ [] := by
  constructor
  · intro ⟨t', ht'⟩
    exact (filterTopic_eq_some ht').1
  · intro hne
    exact ⟨_, by unfold filterTopic; rw [if_neg (by simpa using hne)]⟩

lemma filterUnit_isSome_iff (sigs : List Sig) (unit : Obj) :
    (∃ u', filterUnit sigs unit = some u') ↔ filteredTopics sigs unit ≠ [] := by
  constructor
  · intro ⟨u', hu'⟩
    exact (filterUnit_eq_some hu').1
  · intro hne
    exact ⟨_, by unfold filterUnit; rw [if_neg (by simpa using hne)]⟩

lemma unit_structure {sigs : List Sig} {units : List Obj} {u' : Obj}
    (h : u' ∈ filterUnits sigs units) :
    ∃ unit ∈ units,
      filterUnit sigs unit = some u' ∧
      getField u' "unitCd" = getField unit "unitCd" ∧
      getTopics u' = filteredTopics sigs unit ∧
      filteredTopics sigs unit ≠ [] ∧
      dropKey u' "topics" = dropKey unit "topics" := by
  rcases List.mem_filterMap.mp h with ⟨unit, hm, hf⟩
  rcases filterUnit_eq_some hf with ⟨hne, hset⟩
  subst hset
  exact ⟨unit, hm, hf, getField_unitCd_setField_topics _ _,
    getTopics_setField_topics _ _, hne, dropKey_setField _ _ _⟩

lemma topic_structure {sigs : List Sig} {u : Option Json} {ts : List Obj} {t' : Obj}
    (h : t' ∈ ts.filterMap (filterTopic sigs u)) :
    ∃ topic ∈ ts,
      filterTopic sigs u topic = some t' ∧
      getField t' "topicCd" = getField topic "topicCd" ∧
      getSkills t' = filterSkills sigs u (getField topic "topicCd") (getSkills topic) ∧
      filterSkills sigs u (getField topic "topicCd") (getSkills topic) ≠ [] ∧
      dropKey t' "skills" = dropKey topic "skills" := by
  rcases List.mem_filterMap.mp h with ⟨topic, hm, hf⟩
  rcases filterTopic_eq_some hf with ⟨hne, hset⟩
  subst hset
  exact ⟨topic, hm, hf, getField_topicCd_setField_skills _ _,
    getSkills_setField_skills _ _, hne, dropKey_setField _ _ _⟩

lemma mem_filterSkills {sigs : List Sig} {u t : Option Json} {skills : List Obj} {s : Obj}
    (h : s ∈ filterSkills sigs u t skills) :
    s ∈ skills ∧ (u, t, getField s "skillCd") ∉ sigs := by
  rcases List.mem_filter.mp h with ⟨hm, hp⟩
  exact ⟨hm, by simpa using hp⟩

/-- Skills surviving in the output never carry a signature from the set. -/
lemma out_sig_not_mem (sigs : List Sig) (units : List Obj) :
    ∀ u' ∈ filterUnits sigs units, ∀ t' ∈ getTopics u', ∀ s' ∈ getSkills t',
      (getField u' "unitCd", getField t' "topicCd", getField s' "skillCd") ∉ sigs := by
  intro u' hu' t' ht' s' hs'
  rcases unit_structure hu' with ⟨unit, _, _, hcd, htop, _, _⟩
  rw [htop] at ht'
  rcases topic_structure ht' with ⟨topic, _, _, htcd, hsk, _, _⟩
  rw [hsk] at hs'
  rcases mem_filterSkills hs' with ⟨_, hnm⟩
  rw [hcd, htcd]
  exact hnm

lemma valid_of_mem_docSigs {d : Json} {sig : Sig} (h : sig ∈ docSigs d) :
    otruthy sig.1 = true ∧ otruthy sig.2.1 = true ∧ otruthy sig.2.2 = true := by
  unfold docSigs at h
  rcases List.mem_flatMap.mp h with ⟨unit, _, h⟩
  rcases List.mem_flatMap.mp h with ⟨topic, _, h⟩
  rcases List.mem_filterMap.mp h with ⟨skill, _, hf⟩
  by_cases hc : (otruthy (getField unit "unitCd") && otruthy (getField topic "topicCd")
      && otruthy (getField skill "skillCd")) = true
  · rw [if_pos hc] at hf
    rcases Option.some_inj.mp hf with rfl
    simp only [Bool.and_eq_true] at hc
    exact ⟨hc.1.1, hc.1.2, hc.2⟩
  · rw [if_neg hc] at hf
    exact absurd hf (by simp)

lemma valid_of_mem_aggFiles {parsed : List (Option Json)} {sig : Sig}
    (h : sig ∈ aggFiles parsed) :
    otruthy sig.1 = true ∧ otruthy sig.2.1 = true ∧ otruthy sig.2.2 = true := by
  unfold aggFiles at h
  rcases List.mem_flatMap.mp h with ⟨pd, _, h⟩
  match pd with
  | none => exact absurd h (by simp)
  | some d => exact valid_of_mem_docSigs h

lemma skill_retained {sigs : List Sig} {units : List Obj} {unit topic skill : Obj}
    (hu : unit ∈ units) (ht : topic ∈ getTopics unit) (hs : skill ∈ getSkills topic)
    (hnm : (getField unit "unitCd", getField topic "topicCd",
      getField skill "skillCd") ∉ sigs) :
    ∃ u' ∈ filterUnits sigs units, ∃ t' ∈ getTopics u', skill ∈ getSkills t' := by
  have hmemf : skill ∈ filterSkills sigs (getField unit "unitCd")
      (getField topic "topicCd") (getSkills topic) :=
    List.mem_filter.mpr ⟨hs, by simpa using hnm⟩
  have hne : filterSkills sigs (getField unit "unitCd")
      (getField topic "topicCd") (getSkills topic) ≠ [] :=
    fun hc => by rw [hc] at hmemf; exact absurd hmemf (by simp)
  obtain ⟨t0, hft⟩ := (filterTopic_isSome_iff sigs (getField unit "unitCd") topic).mpr hne
  have ht0 : t0 ∈ filteredTopics sigs unit := List.mem_filterMap.mpr ⟨topic, ht, hft⟩
  have hnt : filteredTopics sigs unit ≠ [] :=
    fun hc => by rw [hc] at ht0; exact absurd ht0 (by simp)
  obtain ⟨u0, hfu⟩ := (filterUnit_isSome_iff sigs unit).mpr hnt
  have hu0 : u0 ∈ filterUnits sigs units := List.mem_filterMap.mpr ⟨unit, hu, hfu⟩
  have hgt : getTopics u0 = filteredTopics sigs unit := by
    rcases filterUnit_eq_some hfu with ⟨-, rfl⟩
    exact getTopics_setField_topics _ _
  have hgs : getSkills t0 = filterSkills sigs (getField unit "unitCd")
      (getField topic "topicCd") (getSkills topic) := by
    rcases filterTopic_eq_some hft with ⟨-, rfl⟩
    exact getSkills_setField_skills _ _
  exact ⟨u0, hu0, t0, by rw [hgt]; exact ht0, by rw [hgs]; exact hmemf⟩

lemma out_nonempty (sigs : List Sig) (units : List Obj) :
    ∀ u' ∈ filterUnits sigs units,
      getTopics u' ≠ [] ∧ ∀ t' ∈ getTopics u', getSkills t' ≠ [] := by
  intro u' hu'
  rcases unit_structure hu' with ⟨unit, _, _, _, htop, hne, _⟩
  constructor
  · rw [htop]
    exact hne
  · intro t' ht'
    rw [htop] at ht'
    rcases topic_structure ht' with ⟨topic, _, _, _, hsk, hnes, _⟩
    rw [hsk]
    exact hnes

lemma countP_split {α : Type} (l : List α) (p q : α → Bool) :
    l.countP q = l.countP (fun s => q s && p s) + (l.filter (fun s => !p s)).countP q := by
  induction l with
  | nil => rfl
  | cons x xs ih =>
    by_cases hp : p x = true <;> by_cases hq : q x = true <;>
      simp [List.countP_cons, List.filter_cons, hp, hq, ih] <;> omega

lemma filterSkills_countP (sigs : List Sig) (u t : Option Json) (skills : List Obj)
    (q2 : Obj → Bool) :
    skills.countP q2
      = skills.countP (fun skill =>
          q2 skill && decide ((u, t, getField skill "skillCd") ∈ sigs))
        + (filterSkills sigs u t skills).countP q2 :=
  countP_split skills
    (fun skill => decide ((u, t, getField skill "skillCd") ∈ sigs)) q2

lemma topic_split_none (sigs : List Sig) (u : Option Json) (topic : Obj)
    (q : Option Json → Option Json → Obj → Bool)
    (hft : filterTopic sigs u topic = none) :
    (getSkills topic).countP (q u (getField topic "topicCd"))
      = (getSkills topic).countP (fun skill =>
          q u (getField topic "topicCd") skill &&
            decide ((u, getField topic "topicCd", getField skill "skillCd") ∈ sigs)) := by
  have h := filterSkills_countP sigs u (getField topic "topicCd") (getSkills topic)
    (q u (getField topic "topicCd"))
  unfold filterTopic at hft
  by_cases he : (filterSkills sigs u (getField topic "topicCd") (getSkills topic)).isEmpty = true
  · have hnil : filterSkills sigs u (getField topic "topicCd") (getSkills topic) = [] := by
      simpa using he
    rw [h, hnil]
    simp
  · rw [if_neg he] at hft
    exact absurd hft (by simp)

lemma topic_split_some (sigs : List Sig) (u : Option Json) (topic t' : Obj)
    (q : Option Json → Option Json → Obj → Bool)
    (hft : filterTopic sigs u topic = some t') :
    (getSkills topic).countP (q u (getField topic "topicCd"))
      = (getSkills topic).countP (fun skill =>
          q u (getField topic "topicCd") skill &&
            decide ((u, getField topic "topicCd", getField skill "skillCd") ∈ sigs))
        + (getSkills t').countP (q u (getField t' "topicCd")) := by
  rcases filterTopic_eq_some hft with ⟨-, rfl⟩
  rw [getSkills_setField_skills, getField_topicCd_setField_skills]
  exact filterSkills_countP sigs u (getField topic "topicCd") (getSkills topic)
    (q u (getField topic "topicCd"))

lemma topics_split (sigs : List Sig) (u : Option Json)
    (q : Option Json → Option Json → Obj → Bool) (ts : List Obj) :
    (ts.map (fun t => (getSkills t).countP (q u (getField t "topicCd")))).sum
      = (ts.map (fun t => (getSkills t).countP (fun skill =>
            q u (getField t "topicCd") skill &&
              decide ((u, getField t "topicCd", getField skill "skillCd") ∈ sigs)))).sum
        + ((ts.filterMap (filterTopic sigs u)).map
            (fun t' => (getSkills t').countP (q u (getField t' "topicCd")))).sum := by
  induction ts with
  | nil => rfl
  | cons t ts ih =>
    rw [List.map_cons, List.map_cons, List.sum_cons, List.sum_cons]
    cases hft : filterTopic sigs u t with
    | none =>
      have hsplit := topic_split_none sigs u t q hft
      simp only [List.filterMap_cons, hft]
      rw [ih]
      omega
    | some t' =>
      have hsplit := topic_split_some sigs u t t' q hft
      simp only [List.filterMap_cons, hft, List.map_cons, List.sum_cons]
      rw [ih]
      omega

lemma unit_split_none (sigs : List Sig) (q : Option Json → Option Json → Obj → Bool)
    (unit : Obj) (hfu : filterUnit sigs unit = none) :
    ((getTopics unit).map (fun t =>
        (getSkills t).countP (q (getField unit "unitCd") (getField t "topicCd")))).sum
      = ((getTopics unit).map (fun t => (getSkills t).countP (fun skill =>
            q (getField unit "unitCd") (getField t "topicCd") skill &&
              decide ((getField unit "unitCd", getField t "topicCd",
                getField skill "skillCd") ∈ sigs)))).sum := by
  have h := topics_split sigs (getField unit "unitCd") q (getTopics unit)
  unfold filterUnit at hfu
  by_cases he : (filteredTopics sigs unit).isEmpty = true
  · have hnil : filteredTopics sigs unit = [] := by simpa using he
    unfold filteredTopics at hnil
    rw [h, hnil]
    simp
  · rw [if_neg he] at hfu
    exact absurd hfu (by simp)

lemma unit_split_some (sigs : List Sig) (q : Option Json → Option Json → Obj → Bool)
    (unit u' : Obj) (hfu : filterUnit sigs unit = some u') :
    ((getTopics unit).map (fun t =>
        (getSkills t).countP (q (getField unit "unitCd") (getField t "topicCd")))).sum
      = ((getTopics unit).map (fun t => (getSkills t).countP (fun skill =>
            q (getField unit "unitCd") (getField t "topicCd") skill &&
              decide ((getField unit "unitCd", getField t "topicCd",
                getField skill "skillCd") ∈ sigs)))).sum
        + ((getTopics u').map (fun t =>
            (getSkills t).countP (q (getField u' "unitCd") (getField t "topicCd")))).sum := by
  rcases filterUnit_eq_some hfu with ⟨-, rfl⟩
  rw [getTopics_setField_topics, getField_unitCd_setField_topics]
  exact topics_split sigs (getField unit "unitCd") q (getTopics unit)

lemma qCount_conservation (sigs : List Sig)
    (q : Option Json → Option Json → Obj → Bool) (units : List Obj) :
    qCount q units = qRemoved sigs q units + qCount q (filterUnits sigs units) := by
  induction units with
  | nil => rfl
  | cons unit units ih =>
    unfold qCount qRemoved filterUnits at ih ⊢
    rw [List.map_cons, List.map_cons, List.sum_cons, List.sum_cons]
    cases hfu : filterUnit sigs unit with
    | none =>
      have hsplit := unit_split_none sigs q unit hfu
      simp only [List.filterMap_cons, hfu]
      rw [ih]
      omega
    | some u' =>
      have hsplit := unit_split_some sigs q unit u' hfu
      simp only [List.filterMap_cons, hfu, List.map_cons, List.sum_cons]
      rw [ih]
      omega

lemma skillsCountOf_eq_qCount (units : List Obj) :
    skillsCountOf units = qCount (fun _ _ _ => true) units := by
  unfold skillsCountOf qCount
  simp [List.countP_true]

lemma removedSkills_eq_qRemoved (sigs : List Sig) (units : List Obj) :
    removedSkills sigs units = qRemoved sigs (fun _ _ _ => true) units := by
  unfold removedSkills qRemoved
  simp

/-- Conservation of skills: the input count is the removed count plus the
output count. -/
lemma skills_conservation (sigs : List Sig) (units : List Obj) :
    skillsCountOf units = removedSkills sigs units + skillsCountOf (filterUnits sigs units) := by
  rw [skillsCountOf_eq_qCount, skillsCountOf_eq_qCount, removedSkills_eq_qRemoved]
  exact qCount_conservation sigs _ units

/-- Per-signature conservation: when a signature is not in the set, every
skill carrying it survives the filter. -/
lemma sigCount_preserved {sigs : List Sig} (sig : Sig) (units : List Obj)
    (hnm : sig ∉ sigs) :
    sigCountIn sig (filterUnits sigs units) = sigCountIn sig units := by
  have hq : sigCountIn sig units
      = qCount (fun u t s => decide ((u, t, getField s "skillCd") = sig)) units := rfl
  have hq' : sigCountIn sig (filterUnits sigs units)
      = qCount (fun u t s => decide ((u, t, getField s "skillCd") = sig))
          (filterUnits sigs units) := rfl
  have hzero : qRemoved sigs
      (fun u t s => decide ((u, t, getField s "skillCd") = sig)) units = 0 := by
    unfold qRemoved
    refine List.sum_eq_zero (fun x hx => ?_)
    rcases List.mem_map.mp hx with ⟨unit, _, rfl⟩
    refine List.sum_eq_zero (fun y hy => ?_)
    rcases List.mem_map.mp hy with ⟨topic, _, rfl⟩
    rw [List.countP_eq_zero]
    intro skill _
    simp only [Bool.and_eq_true, decide_eq_true_eq]
    rintro ⟨rfl, hmem⟩
    exact hnm hmem
  have := qCount_conservation sigs
    (fun u t s => decide ((u, t, getField s "skillCd") = sig)) units
  rw [hzero] at this
  rw [hq, hq']
  omega

lemma filterSkills_idem (sigs : List Sig) (u t : Option Json) (skills : List Obj) :
    filterSkills sigs u t (filterSkills sigs u t skills) = filterSkills sigs u t skills := by
  unfold filterSkills
  rw [List.filter_filter]
  exact List.filter_congr (fun a _ => Bool.and_self _)

lemma filterTopic_out (sigs : List Sig) (u : Option Json) {topic t' : Obj}
    (hft : filterTopic sigs u topic = some t') :
    filterTopic sigs u t' = some t' := by
  rcases filterTopic_eq_some hft with ⟨hne, rfl⟩
  unfold filterTopic
  rw [getSkills_setField_skills, getField_topicCd_setField_skills, filterSkills_idem,
    if_neg (by simpa using hne), setField_setField]

lemma filterUnit_out (sigs : List Sig) {unit u' : Obj}
    (hfu : filterUnit sigs unit = some u') :
    filterUnit sigs u' = some u' := by
  rcases filterUnit_eq_some hfu with ⟨hne, rfl⟩
  unfold filterUnit
  have hft : filteredTopics sigs (setField unit "topics" (arrOfObjs (filteredTopics sigs unit)))
      = filteredTopics sigs unit := by
    unfold filteredTopics
    rw [getTopics_setField_topics, getField_unitCd_setField_topics]
    refine filterMap_eq_self_of _ _ (fun t' ht' => ?_)
    rcases List.mem_filterMap.mp ht' with ⟨topic, _, hf⟩
    exact filterTopic_out sigs _ hf
  rw [hft, if_neg (by simpa using hne), setField_setField]

lemma filterUnits_idem (sigs : List Sig) (units : List Obj) :
    filterUnits sigs (filterUnits sigs units) = filterUnits sigs units :=
  filterMap_eq_self_of _ _ (fun u' hu' => by
    rcases List.mem_filterMap.mp hu' with ⟨unit, _, hf⟩
    exact filterUnit_out sigs hf)

lemma removedSkills_out (sigs : List Sig) (units : List Obj) :
    removedSkills sigs (filterUnits sigs units) = 0 := by
  unfold removedSkills
  refine List.sum_eq_zero (fun x hx => ?_)
  rcases List.mem_map.mp hx with ⟨u', hu', rfl⟩
  refine List.sum_eq_zero (fun y hy => ?_)
  rcases List.mem_map.mp hy with ⟨t', ht', rfl⟩
  rw [List.countP_eq_zero]
  intro s' hs'
  simpa using out_sig_not_mem sigs units u' hu' t' ht' s' hs'

@[simp] lemma arr_ofList_toList : (xs : JArr) → JArr.ofList xs.toList = xs
  | .nil => rfl
  | .cons x xs => by simp [JArr.toList, JArr.ofList, arr_ofList_toList xs]

@[simp] lemma obj_ofList_toList : (xs : JObj) → JObj.ofList xs.toList = xs
  | .nil => rfl
  | .cons k v xs => by simp [JObj.toList, JObj.ofList, obj_ofList_toList xs]

lemma map_objOfList_asObjs (ss : List Json) (h : ss.all isObjB = true) :
    (asObjs ss).map objOfList = ss := by
  induction ss with
  | nil => rfl
  | cons x xs ih =>
    simp only [List.all_cons, Bool.and_eq_true] at h
    cases x with
    | obj kvs => simp only [asObjs, List.map_cons] at ih ⊢
                 rw [ih h.2]
                 simp [asObj, objOfList]
    | null => exact absurd h.1 (by simp [isObjB])
    | bool b => exact absurd h.1 (by simp [isObjB])
    | str s => exact absurd h.1 (by simp [isObjB])
    | num n => exact absurd h.1 (by simp [isObjB])
    | arr a => exact absurd h.1 (by simp [isObjB])

lemma setField_eq_self {o : Obj} {k : String} {v : Json}
    (hnd : (o.map Prod.fst).Nodup) (hget : getField o k = some v) :
    setField o k v = o := by
  unfold getField at hget
  cases hf : o.find? (fun kv => kv.1 == k) with
  | none => rw [hf] at hget; exact absurd hget (by simp)
  | some kv0 =>
    rw [hf] at hget
    have hv0 : kv0.2 = v := by simpa using hget
    have hm0 : kv0 ∈ o := List.mem_of_find?_eq_some hf
    have hk0 : kv0.1 = k := by simpa using List.find?_some hf
    apply setField_of_forall
    · exact List.any_eq_true.mpr ⟨kv0, hm0, by simpa using hk0⟩
    · intro kv hm hk
      have : kv = kv0 :=
        List.inj_on_of_nodup_map hnd hm hm0 (by rw [hk, hk0])
      rw [this, ← hv0, ← hk0]

lemma filterSkills_nil_sigs (u t : Option Json) (skills : List Obj) :
    filterSkills [] u t skills = skills := by
  unfold filterSkills
  simp

lemma filterTopic_wf (u : Option Json) (topic : Obj) (h : topicWFB topic = true) :
    filterTopic [] u topic = some topic := by
  unfold topicWFB at h
  rw [Bool.and_eq_true] at h
  rcases h with ⟨hnd, hsk⟩
  cases hg : getField topic "skills" with
  | none => rw [hg] at hsk; exact absurd hsk (by simp)
  | some j =>
    cases j with
    | arr ss =>
      rw [hg] at hsk
      simp only [Bool.and_eq_true] at hsk
      unfold filterTopic
      rw [filterSkills_nil_sigs]
      have hskills : getSkills topic = asObjs ss.toList := by
        unfold getSkills
        rw [hg]
        rfl
      rw [hskills]
      have hne : ¬ (asObjs ss.toList).isEmpty = true := by
        intro hc
        rw [List.isEmpty_iff] at hc
        have : ss.toList = [] := by
          cases hl : ss.toList with
          | nil => rfl
          | cons a l => rw [hl] at hc; exact absurd hc (by simp [asObjs])
        rw [this] at hsk
        exact absurd hsk.1 (by simp)
      rw [if_neg hne]
      have harr : arrOfObjs (asObjs ss.toList) = .arr ss := by
        unfold arrOfObjs
        rw [map_objOfList_asObjs ss.toList hsk.2, arr_ofList_toList]
      rw [harr]
      rw [setField_eq_self (by simpa using hnd) hg]
    | null => rw [hg] at hsk; exact absurd hsk (by simp)
    | bool b => rw [hg] at hsk; exact absurd hsk (by simp)
    | str s => rw [hg] at hsk; exact absurd hsk (by simp)
    | num n => rw [hg] at hsk; exact absurd hsk (by simp)
    | obj kvs => rw [hg] at hsk; exact absurd hsk (by simp)

lemma filterUnit_wf (unit : Obj) (h : unitWFB unit = true) :
    filterUnit [] unit = some unit := by
  unfold unitWFB at h
  rw [Bool.and_eq_true] at h
  rcases h with ⟨hnd, htp⟩
  cases hg : getField unit "topics" with
  | none => rw [hg] at htp; exact absurd htp (by simp)
  | some j =>
    cases j with
    | arr ts =>
      rw [hg] at htp
      simp only [Bool.and_eq_true] at htp
      unfold filterUnit
      have htopics : getTopics unit = asObjs ts.toList := by
        unfold getTopics
        rw [hg]
        rfl
      have hself : filteredTopics [] unit = asObjs ts.toList := by
        unfold filteredTopics
        rw [htopics]
        refine filterMap_eq_self_of _ _ (fun t ht => ?_)
        rcases List.mem_map.mp ht with ⟨tj, htj, rfl⟩
        have := List.all_eq_true.mp htp.2 tj htj
        rw [Bool.and_eq_true] at this
        exact filterTopic_wf _ _ this.2
      rw [hself]
      have hne : ¬ (asObjs ts.toList).isEmpty = true := by
        intro hc
        rw [List.isEmpty_iff] at hc
        have : ts.toList = [] := by
          cases hl : ts.toList with
          | nil => rfl
          | cons a l => rw [hl] at hc; exact absurd hc (by simp [asObjs])
        rw [this] at htp
        exact absurd htp.1 (by simp)
      rw [if_neg hne]
      have harr : arrOfObjs (asObjs ts.toList) = .arr ts := by
        unfold arrOfObjs
        have hallobj : ts.toList.all isObjB = true := by
          refine List.all_eq_true.mpr (fun tj htj => ?_)
          have := List.all_eq_true.mp htp.2 tj htj
          rw [Bool.and_eq_true] at this
          exact this.1
        rw [map_objOfList_asObjs ts.toList hallobj, arr_ofList_toList]
      rw [harr]
      rw [setField_eq_self (by simpa using hnd) hg]
    | null => rw [hg] at htp; exact absurd htp (by simp)
    | bool b => rw [hg] at htp; exact absurd htp (by simp)
    | str s => rw [hg] at htp; exact absurd htp (by simp)
    | num n => rw [hg] at htp; exact absurd htp (by simp)
    | obj kvs => rw [hg] at htp; exact absurd htp (by simp)

lemma insertSorted_ne_nil (x : String) (l : List String) : insertSorted x l ≠ [] := by
  cases l with
  | nil => simp [insertSorted]
  | cons y ys =>
    unfold insertSorted
    split <;> simp

lemma allFilesOf_not_empty {files : List String} (h : PHYSICS_FILENAME ∈ files) :
    (allFilesOf files).isEmpty = false := by
  unfold allFilesOf
  have hf : PHYSICS_FILENAME ∈ files.filter matchesGlob :=
    List.mem_filter.mpr ⟨h, by decide⟩
  cases hl : files.filter matchesGlob with
  | nil => rw [hl] at hf; exact absurd hf (by simp)
  | cons a l =>
    unfold sortNames
    cases hi : insertSorted a (sortNames l) with
    | nil => exact absurd hi (insertSorted_ne_nil a _)
    | cons b m => simp

lemma runMain_success_inv {files : List String} {parse : String → Option Json}
    {out : Json} {stats : Stats} (h : runMain files parse = .success out stats) :
    ∃ pd, parse PHYSICS_FILENAME = some pd ∧
      out = outputDocOf (filterUnits (sigsOf files parse) (lookupUnits pd)) ∧
      stats = statsOf (sigsOf files parse) (lookupUnits pd)
        (filterUnits (sigsOf files parse) (lookupUnits pd)) (otherEntriesOf files parse) := by
  unfold runMain at h
  by_cases h1 : PHYSICS_FILENAME ∈ files
  · rw [if_pos h1] at h
    by_cases h2 : (allFilesOf files).isEmpty = true
    · rw [if_pos h2] at h
      exact absurd h (by simp)
    · rw [if_neg h2] at h
      cases hp : parse PHYSICS_FILENAME with
      | none => rw [hp] at h; exact absurd h (by simp)
      | some pd =>
        rw [hp] at h
        simp only [RunResult.success.injEq] at h
        exact ⟨pd, rfl, h.1.symm, h.2.symm⟩
  · rw [if_neg h1] at h
    exact absurd h (by simp)

lemma runMain_success_of {files : List String} {parse : String → Option Json} {pd : Json}
    (h1 : PHYSICS_FILENAME ∈ files) (hp : parse PHYSICS_FILENAME = some pd) :
    runMain files parse = .success
      (outputDocOf (filterUnits (sigsOf files parse) (lookupUnits pd)))
      (statsOf (sigsOf files parse) (lookupUnits pd)
        (filterUnits (sigsOf files parse) (lookupUnits pd)) (otherEntriesOf files parse)) := by
  unfold runMain
  rw [if_pos h1, if_neg (by rw [allFilesOf_not_empty h1]; exact Bool.false_ne_true), hp]

lemma runMain_base_parse_failure {files : List String} {parse : String → Option Json}
    (h1 : PHYSICS_FILENAME ∈ files) (hp : parse PHYSICS_FILENAME = none) :
    runMain files parse = .parseErrorBase := by
  unfold runMain
  rw [if_pos h1, if_neg (by rw [allFilesOf_not_empty h1]; exact Bool.false_ne_true), hp]

lemma aggFiles_append_none (pre post : List (Option Json)) :
    aggFiles (pre ++ none :: post) = aggFiles (pre ++ post) := by
  unfold aggFiles
  rw [List.flatMap_append, List.flatMap_cons, List.flatMap_append]
  simp

lemma filterMap_map_sublist {α β : Type} (l : List α) (f : α → Option α) (g : α → β)
    (h : ∀ a b, f a = some b → g b = g a) :
    ((l.filterMap f).map g).Sublist (l.map g) := by
  induction l with
  | nil => simp
  | cons a l ih =>
    rw [List.filterMap_cons]
    cases hfa : f a with
    | none =>
      rw [List.map_cons]
      exact ih.cons _
    | some b =>
      rw [List.map_cons, List.map_cons, h a b hfa]
      exact ih.cons₂ _

/-- C1: every signature with all three components truthy collected from a
successfully parsed "other" file is absent from the filtered base output: no
output skill's (unitCd, topicCd, skillCd) equals it. -/
theorem claim_C1 (parsed : List (Option Json)) (base : Json) (sig : Sig)
    (hsig : sig ∈ aggFiles parsed) :
    ∀ u' ∈ dedupUnits parsed base, ∀ t' ∈ getTopics u', ∀ s' ∈ getSkills t',
      (getField u' "unitCd", getField t' "topicCd", getField s' "skillCd") ≠ sig := by
  intro u' hu' t' ht' s' hs' heq
  unfold dedupUnits at hu'
  exact out_sig_not_mem (aggFiles parsed) (lookupUnits base) u' hu' t' ht' s' hs'
    (heq ▸ hsig)

theorem claim_C1_witness :
    exSig ∈ aggFiles [some exOther] ∧
      (getField exOutUnit "unitCd", getField exOutTopic "topicCd",
        getField exSkillS2 "skillCd") ≠ exSig :=
  ⟨by decide, claim_C1 [some exOther] exBase exSig (by decide) exOutUnit (by decide)
    exOutTopic (by decide) exSkillS2 (by decide)⟩

/-- C2: a skill whose unit, topic or own code is missing or falsy never has
its signature in the aggregation set, and such a skill of the base file is
always retained in the filtered output. -/
theorem claim_C2 (parsed : List (Option Json)) (units : List Obj)
    (unit topic skill : Obj)
    (hu : unit ∈ units) (ht : topic ∈ getTopics unit) (hs : skill ∈ getSkills topic)
    (hbad : otruthy (getField unit "unitCd") = false ∨
      otruthy (getField topic "topicCd") = false ∨
      otruthy (getField skill "skillCd") = false) :
    (getField unit "unitCd", getField topic "topicCd", getField skill "skillCd")
        ∉ aggFiles parsed ∧
      ∃ u' ∈ filterUnits (aggFiles parsed) units, ∃ t' ∈ getTopics u',
        skill ∈ getSkills t' := by
  have hnm : (getField unit "unitCd", getField topic "topicCd",
      getField skill "skillCd") ∉ aggFiles parsed := by
    intro hmem
    rcases valid_of_mem_aggFiles hmem with ⟨h1, h2, h3⟩
    rcases hbad with hb | hb | hb <;> simp_all
  exact ⟨hnm, skill_retained hu ht hs hnm⟩

theorem claim_C2_witness :
    (getField exBadUnit "unitCd", getField exBadTopic "topicCd",
        getField exNoCd "skillCd") ∉ aggFiles [some exOther] ∧
      ∃ u' ∈ filterUnits (aggFiles [some exOther]) (lookupUnits exBadBase),
        ∃ t' ∈ getTopics u', exNoCd ∈ getSkills t' :=
  claim_C2 [some exOther] (lookupUnits exBadBase) exBadUnit exBadTopic exNoCd
    (by decide) (by decide) (by decide) (Or.inr (Or.inr (by decide)))

/-- C3 as stated is false: with zero "other" files the script still drops a
unit whose `topics` list is empty, so the output units are not the base
file's `lookupData.units`. -/
theorem claim_C3_counterexample :
    dedupUnits [] exEmptyTopicsBase ≠ lookupUnits exEmptyTopicsBase := by decide

/-- C3 amended: with zero "other" files, and a base file in which every unit
has duplicate-free keys and a non-empty `topics` array of topic objects, each
with duplicate-free keys and a non-empty `skills` array of objects, the output
units are identical in content and order to the base file's
`lookupData.units` (still dropping top-level fields outside `lookupData`). -/
theorem claim_C3 (base : Json)
    (h : ∀ unit ∈ lookupUnits base, unitWFB unit = true) :
    dedupUnits [] base = lookupUnits base := by
  unfold dedupUnits filterUnits
  exact filterMap_eq_self_of _ _ (fun unit hm => filterUnit_wf unit (h unit hm))

theorem claim_C3_witness : dedupUnits [] exBase = lookupUnits exBase :=
  claim_C3 exBase (by decide)

/-- C4: a unit is kept iff its filtered topics are non-empty, a topic is kept
iff its filtered skills are non-empty, and equivalently no output unit has an
empty `topics` sequence and no output topic an empty `skills` sequence. -/
theorem claim_C4 (sigs : List Sig) (units : List Obj) :
    (∀ unit ∈ units,
      (∃ u', filterUnit sigs unit = some u') ↔ filteredTopics sigs unit ≠ []) ∧
    (∀ (u : Option Json) (topic : Obj),
      (∃ t', filterTopic sigs u topic = some t') ↔
        filterSkills sigs u (getField topic "topicCd") (getSkills topic) ≠ []) ∧
    (∀ u' ∈ filterUnits sigs units,
      getTopics u' ≠ [] ∧ ∀ t' ∈ getTopics u', getSkills t' ≠ []) :=
  ⟨fun unit _ => filterUnit_isSome_iff sigs unit,
   fun u topic => filterTopic_isSome_iff sigs u topic,
   out_nonempty sigs units⟩

theorem claim_C4_witness :
    ((∃ u', filterUnit (aggFiles [some exOther]) exBaseUnit = some u') ↔
        filteredTopics (aggFiles [some exOther]) exBaseUnit ≠ []) ∧
      getTopics exOutUnit ≠ [] :=
  ⟨(claim_C4 (aggFiles [some exOther]) (lookupUnits exBase)).1 exBaseUnit (by decide),
   ((claim_C4 (aggFiles [some exOther]) (lookupUnits exBase)).2.2 exOutUnit
      (by decide)).1⟩

/-- C5: filtering is idempotent — filtering the already-filtered units against
the same signature set yields the same units and removes zero skills. -/
theorem claim_C5 (sigs : List Sig) (units : List Obj) :
    filterUnits sigs (filterUnits sigs units) = filterUnits sigs units ∧
      removedSkills sigs (filterUnits sigs units) = 0 :=
  ⟨filterUnits_idem sigs units, removedSkills_out sigs units⟩

/-- C6: frame condition — the output's units, in original order, preserve
every field except `topics` (value and order); each kept topic preserves
every field except `skills`; retained skills are the original objects in
their original order. -/
theorem claim_C6 (sigs : List Sig) (units : List Obj) :
    ((filterUnits sigs units).map (fun u => dropKey u "topics")).Sublist
        (units.map (fun u => dropKey u "topics")) ∧
    ∀ unit ∈ units, ∀ u', filterUnit sigs unit = some u' →
      dropKey u' "topics" = dropKey unit "topics" ∧
      ((getTopics u').map (fun t => dropKey t "skills")).Sublist
        ((getTopics unit).map (fun t => dropKey t "skills")) ∧
      ∀ t' ∈ getTopics u', ∃ topic ∈ getTopics unit,
        dropKey t' "skills" = dropKey topic "skills" ∧
        (getSkills t').Sublist (getSkills topic) := by
  constructor
  · refine filterMap_map_sublist units (filterUnit sigs) (fun u => dropKey u "topics")
      (fun a b hab => ?_)
    rcases filterUnit_eq_some hab with ⟨-, rfl⟩
    exact dropKey_setField _ _ _
  · intro unit _ u' hfu
    rcases filterUnit_eq_some hfu with ⟨-, rfl⟩
    refine ⟨dropKey_setField _ _ _, ?_, ?_⟩
    · rw [getTopics_setField_topics]
      unfold filteredTopics
      refine filterMap_map_sublist (getTopics unit) _ (fun t => dropKey t "skills")
        (fun a b hab => ?_)
      rcases filterTopic_eq_some hab with ⟨-, rfl⟩
      exact dropKey_setField _ _ _
    · intro t' ht'
      rw [getTopics_setField_topics] at ht'
      rcases topic_structure ht' with ⟨topic, hm, -, -, hsk, -, hdk⟩
      refine ⟨topic, hm, hdk, ?_⟩
      rw [hsk]
      exact List.filter_sublist _

theorem claim_C6_witness :
    ((filterUnits (aggFiles [some exOther]) (lookupUnits exBase)).map
        (fun u => dropKey u "topics")).Sublist
      ((lookupUnits exBase).map (fun u => dropKey u "topics")) ∧
      dropKey exOutUnit "topics" = dropKey exBaseUnit "topics" :=
  ⟨(claim_C6 (aggFiles [some exOther]) (lookupUnits exBase)).1,
   ((claim_C6 (aggFiles [some exOther]) (lookupUnits exBase)).2 exBaseUnit (by decide)
      exOutUnit (by decide)).1⟩

/-- C7: when the base file is absent from the directory, or no file matches
the `*TopicLookup.json` glob, the run ends in a reported ConfigError and no
output file is written. -/
theorem claim_C7 (files : List String) (parse : String → Option Json)
    (h : PHYSICS_FILENAME ∉ files ∨ files.filter matchesGlob = []) :
    isConfigError (runMain files parse) = true ∧
      outputWritten (runMain files parse) = none := by
  have hnot : PHYSICS_FILENAME ∉ files := by
    rcases h with h | h
    · exact h
    · intro hmem
      have hf : PHYSICS_FILENAME ∈ files.filter matchesGlob :=
        List.mem_filter.mpr ⟨hmem, by decide⟩
      rw [h] at hf
      exact absurd hf (by simp)
  unfold runMain
  rw [if_neg hnot]
  exact ⟨rfl, rfl⟩

theorem claim_C7_witness :
    isConfigError (runMain [] (fun _ => none)) = true ∧
      outputWritten (runMain [] (fun _ => none)) = none :=
  claim_C7 [] (fun _ => none) (Or.inl (by simp))

/-- C8: an unparsable "other" file contributes no signatures and the run
still completes, while an unparsable base file terminates the run as a
propagated parse error with no output written. -/
theorem claim_C8 (files : List String) (parse : String → Option Json)
    (pre post : List (Option Json)) (pd : Json) :
    (aggFiles (pre ++ none :: post) = aggFiles (pre ++ post)) ∧
    (PHYSICS_FILENAME ∈ files → parse PHYSICS_FILENAME = some pd →
      isSuccess (runMain files parse) = true) ∧
    (PHYSICS_FILENAME ∈ files → parse PHYSICS_FILENAME = none →
      runMain files parse = .parseErrorBase ∧
        outputWritten (runMain files parse) = none) := by
  refine ⟨aggFiles_append_none pre post, fun h1 hp => ?_, fun h1 hp => ?_⟩
  · rw [runMain_success_of h1 hp]
    rfl
  · rw [runMain_base_parse_failure h1 hp]
    exact ⟨rfl, rfl⟩

theorem claim_C8_witness :
    aggFiles ([some exOther] ++ none :: []) = aggFiles ([some exOther] ++ []) ∧
      isSuccess (runMain [PHYSICS_FILENAME] exParseBaseOnly) = true ∧
      runMain [PHYSICS_FILENAME] (fun _ => none) = .parseErrorBase :=
  ⟨(claim_C8 [PHYSICS_FILENAME] exParseBaseOnly [some exOther] [] exBase).1,
   (claim_C8 [PHYSICS_FILENAME] exParseBaseOnly [some exOther] [] exBase).2.1
      (by decide) (by decide),
   ((claim_C8 [PHYSICS_FILENAME] (fun _ => none) [some exOther] [] exBase).2.2
      (by decide) rfl).1⟩

/-- C9: the aggregated set never contains signatures contributed by the base
file itself, so base-internal duplicates are kept: whenever a signature is
not in the aggregated set, the number of base skills carrying it is unchanged
by the filter. -/
theorem claim_C9 (parsed : List (Option Json)) (base : Json) (sig : Sig)
    (hnm : sig ∉ aggFiles parsed) :
    sigCountIn sig (dedupUnits parsed base) = sigCountIn sig (lookupUnits base) := by
  unfold dedupUnits
  exact sigCount_preserved sig (lookupUnits base) hnm

theorem claim_C9_witness :
    sigCountIn exSigS2 (dedupUnits [some exOther] exDupBase)
      = sigCountIn exSigS2 (lookupUnits exDupBase) :=
  claim_C9 [some exOther] exDupBase exSigS2 (by decide)

/-- C10: every run that reaches the summary reports counts with
`origSkills = removed + outSkills`: each base skill is either counted as
removed or present in the output. -/
theorem claim_C10 (files : List String) (parse : String → Option Json)
    (out : Json) (stats : Stats) (h : runMain files parse = .success out stats) :
    stats.origSkills = stats.removed + stats.outSkills := by
  rcases runMain_success_inv h with ⟨pd, -, -, hstats⟩
  subst hstats
  unfold statsOf
  exact skills_conservation (sigsOf files parse) (lookupUnits pd)

theorem claim_C10_witness : exStats.origSkills = exStats.removed + exStats.outSkills :=
  claim_C10 exFiles exParse exOut exStats (by decide)

end Em
